import Mathlib

/-!
# statsd client: encoding, sampling, submission queue and sender

A shallow embedding of `statsd/main.go`.

* Go strings are Lean strings; `fmt.Sprintf` with `%s` verbs is concatenation.
* `int64` values are integers, with an explicit wrap where the code can overflow.
* `float32` values are IEEE-754 binary32 values given by sign, biased exponent and
  fraction; comparisons are exact on the represented values.
* The value `rand.Float32()` would return is an explicit argument `draw`.
* The buffered channel `s.data` is its capacity, its buffered contents and the history of
  values sent on it; the unbuffered channel `s.quit` is its closed flag.
* What `s.buf.Write`, `s.buf.Flush` and `(*s.conn).Close` return is an explicit argument
  of the code that calls them.
* The one goroutine `newClient` starts through `StartSender` and the goroutines calling the
  client are interleaved by a step function on a system state. An operation that cannot
  proceed in a state is `blocked` there, one that panics is `panicked`, and a run goes
  through completed steps only.
-/

namespace Statsd

/-! ## Outcomes of an operation -/

/-- Outcome of running an operation to its end in a given state. -/
inductive Res (α : Type) where
  /-- the operation completed -/
  | done (a : α)
  /-- the goroutine cannot proceed in this state -/
  | blocked
  /-- the operation panics -/
  | panicked (msg : String)
  deriving DecidableEq

/-- Go `error` values; `none` is `nil`. -/
abbrev Error := String

/-! ## int64 -/

/-- Values of type `int64`. -/
def isInt64 (v : Int) : Prop := -9223372036854775808 ≤ v ∧ v < 9223372036854775808

instance (v : Int) : Decidable (isInt64 v) := by
  unfold isInt64; exact inferInstance

/-- Reduction of an integer to its `int64` representative (two's complement). -/
def wrap64 (v : Int) : Int :=
  (v + 9223372036854775808) % 18446744073709551616 - 9223372036854775808

/-- The unary minus of Go on `int64`. -/
def neg64 (v : Int) : Int := wrap64 (-v)

/-! ## float32 -/

/-- An IEEE-754 binary32 value: sign bit, 8-bit biased exponent, 23-bit fraction. -/
structure Float32 where
  sign : Bool
  expo : Nat
  frac : Nat
  expo_lt : expo < 256
  frac_lt : frac < 8388608
  deriving DecidableEq

namespace Float32

/-- NaN: exponent all ones, fraction non-zero. -/
def isNaN (x : Float32) : Bool := x.expo == 255 && x.frac != 0

/-- An infinity: exponent all ones, fraction zero. -/
def isInf (x : Float32) : Bool := x.expo == 255 && x.frac == 0

/-- The magnitude of a value in units of `2^-149`. Subnormals (`expo = 0`) are
`frac * 2^-149`, normals are `(2^23 + frac) * 2^(expo - 150)`. On an infinity the
same formula gives `2^277`, above every finite magnitude. -/
def mag (x : Float32) : Nat :=
  if x.expo = 0 then x.frac else (8388608 + x.frac) * 2 ^ (x.expo - 1)

/-- The signed value in units of `2^-149` (both zeros give `0`). -/
def key (x : Float32) : Int := if x.sign then -(x.mag : Int) else (x.mag : Int)

/-- The comparison `x < y` of Go: false when an operand is NaN. -/
def lt (x y : Float32) : Bool := !x.isNaN && !y.isNaN && decide (x.key < y.key)

/-- The comparison `x <= y` of Go: false when an operand is NaN. -/
def le (x y : Float32) : Bool := !x.isNaN && !y.isNaN && decide (x.key ≤ y.key)

/-- The constant `0`. -/
def zero : Float32 := ⟨false, 0, 0, by decide, by decide⟩

/-- The constant `1`. -/
def one : Float32 := ⟨false, 127, 0, by decide, by decide⟩

/-- The value `0.5`. -/
def half : Float32 := ⟨false, 126, 0, by decide, by decide⟩

/-- The range of `rand.Float32()`: the half-open interval `[0.0, 1.0)`. -/
def inUnit (r : Float32) : Prop := zero.le r = true ∧ r.lt one = true

instance (r : Float32) : Decidable (inUnit r) := by
  unfold inUnit; exact inferInstance

end Float32

/-! ## fmt verbs -/

/-- The decimal digit character of `d < 10`. -/
def digit (d : Nat) : Char := Char.ofNat (48 + d % 10)

/-- Six decimal digits of `n < 10^6`, zero padded. -/
def six (n : Nat) : List Char :=
  [digit (n / 100000), digit (n / 10000), digit (n / 1000),
   digit (n / 100), digit (n / 10), digit n]

/-- The verb `%d` on an integer: a minus sign when negative, then the decimal digits. -/
def fmtD (v : Int) : String :=
  if v < 0 then "-" ++ Nat.repr v.natAbs else Nat.repr v.natAbs

/-- Rounding of `a / b` to the nearest integer, ties to even. -/
def roundHalfEven (a b : Nat) : Nat :=
  let q := a / b
  let r := a % b
  if 2 * r < b then q
  else if b < 2 * r then q + 1
  else if q % 2 = 0 then q else q + 1

/-- The millionths in the magnitude of a finite value, rounded to nearest, ties to even. -/
def micros (x : Float32) : Nat := roundHalfEven (x.mag * 1000000) (2 ^ 149)

/-- The verb `%f` on a `float32`: the exact value rounded to six fractional digits (ties to
even), printed as integer part, point and six digits, with a minus sign when the sign bit
is set; `NaN`, `+Inf` and `-Inf` for the special values. -/
def fmtF (x : Float32) : String :=
  if x.isNaN then "NaN"
  else if x.isInf then (if x.sign then "-Inf" else "+Inf")
  else
    (if x.sign then "-" else "") ++ Nat.repr (micros x / 1000000) ++ "."
      ++ String.mk (six (micros x % 1000000))

/-! ## The client -/

/-- The buffered channel `data chan string`. -/
structure DataChan where
  /-- capacity given to `make` -/
  cap : Nat
  /-- values sent and not yet received, oldest first -/
  buf : List String
  /-- every value sent on the channel so far, oldest first -/
  sent : List String
  deriving DecidableEq

/-- The statement `ch <- x` on the data channel: blocks while the buffer is full. -/
def DataChan.send (ch : DataChan) (x : String) : Res DataChan :=
  if ch.buf.length < ch.cap then
    .done { ch with buf := ch.buf ++ [x], sent := ch.sent ++ [x] }
  else .blocked

/-- The expression `<-ch` on the data channel: blocks while the buffer is empty. -/
def DataChan.recv (ch : DataChan) : Res (String × DataChan) :=
  match ch.buf with
  | [] => .blocked
  | d :: rest => .done (d, { ch with buf := rest })

/-- The struct `Client`. -/
structure Client where
  /-- whether `buf` is nil -/
  bufNil : Bool
  /-- whether `Close` has been called on `*conn` -/
  connClosed : Bool
  /-- the field named prefix -/
  pfx : String
  data : DataChan
  /-- whether the channel `quit` is closed -/
  quitClosed : Bool
  deriving DecidableEq

/-- The method `SetPrefix`. -/
def SetPrefix (s : Client) (p : String) : Client := { s with pfx := p }

/-- The statements of `submit` before the send: the line it will send on `s.data`, or
`none` when it returns at the sampling test. -/
def submitLine (s : Client) (draw : Float32) (stat value : String) (rate : Float32) :
    Option String :=
  let sampled : Option String :=
    if rate.lt Float32.one then
      if draw.lt rate then some (value ++ "|@" ++ fmtF rate) else none
    else some value
  match sampled with
  | none => none
  | some value =>
    let stat := if s.pfx != "" then s.pfx ++ "." ++ stat else stat
    some (stat ++ ":" ++ value)

/-- The method `submit`: sampling, formatting, the send on `s.data`, and the returned
error. -/
def submit (s : Client) (draw : Float32) (stat value : String) (rate : Float32) :
    Res (Client × Option Error) :=
  match submitLine s draw stat value rate with
  | none => .done (s, none)
  | some line =>
    match s.data.send line with
    | .done ch => .done ({ s with data := ch }, none)
    | .blocked => .blocked
    | .panicked m => .panicked m

/-- The method `Inc`. -/
def Inc (s : Client) (draw : Float32) (stat : String) (value : Int) (rate : Float32) :
    Res (Client × Option Error) :=
  submit s draw stat (fmtD value ++ "|c") rate

/-- The method `Dec`; the minus is that of `int64`. -/
def Dec (s : Client) (draw : Float32) (stat : String) (value : Int) (rate : Float32) :
    Res (Client × Option Error) :=
  Inc s draw stat (neg64 value) rate

/-- The method `Guage`. -/
def Guage (s : Client) (draw : Float32) (stat : String) (value : Int) (rate : Float32) :
    Res (Client × Option Error) :=
  submit s draw stat (fmtD value ++ "|g") rate

/-- The method `Timing`. -/
def Timing (s : Client) (draw : Float32) (stat : String) (delta : Int) (rate : Float32) :
    Res (Client × Option Error) :=
  submit s draw stat (fmtD delta ++ "|ms") rate

/-- The public emission operations. -/
inductive Op where
  | inc | dec | guage | timing
  deriving DecidableEq

/-- The method an `Op` names. -/
def Op.call : Op → Client → Float32 → String → Int → Float32 → Res (Client × Option Error)
  | .inc => Inc
  | .dec => Dec
  | .guage => Guage
  | .timing => Timing

/-- The method `send`: `w` is what `s.buf.Write([]byte(data))` returns and `f` what `s.buf.Flush()`
returns when it is called. -/
def send (s : Client) (_data : String) (w : Nat × Option Error) (f : Option Error) :
    Res (Nat × Option Error) :=
  if s.bufNil then .panicked "invalid memory address or nil pointer dereference"
  else
    match w.2 with
    | some err => .done (w.1, some err)
    | none =>
      match f with
      | some err => .done (w.1, some err)
      | none => .done (w.1, none)

/-! ## The sender goroutine and the system -/

/-- State of the goroutine started by `StartSender`: in its loop, or returned. -/
inductive SenderState where
  | running | stopped
  deriving DecidableEq

/-- A client together with its sender goroutine and what they have done so far. -/
structure System where
  client : Client
  sender : SenderState
  /-- the arguments of the sender's calls of `send`, oldest first -/
  handed : List String
  /-- what the sender has printed with `fmt.Println`, oldest first -/
  stdout : List String
  /-- a call of `Close` is past its send on `quit` and has not returned -/
  closing : Bool
  deriving DecidableEq

/-- The method `StartSender`: the goroutine enters its loop. -/
def StartSender (s : System) : System := { s with sender := .running }

/-- The function `newClient`, with the sender it starts. -/
def newClient (p : String) : System :=
  StartSender
    { client :=
        { bufNil := false, connClosed := false, pfx := p,
          data := { cap := 100, buf := [], sent := [] }, quitClosed := false },
      sender := .stopped, handed := [], stdout := [], closing := false }

/-- The case `d := <-s.data` of the sender's select: one dequeue, one `send`, and the
print when `send` returned an error. -/
def senderData (s : System) (w : Nat × Option Error) (f : Option Error) : Res System :=
  match s.sender with
  | .stopped => .blocked
  | .running =>
    match s.client.data.recv with
    | .blocked => .blocked
    | .panicked m => .panicked m
    | .done (d, ch) =>
      match send s.client d w f with
      | .blocked => .blocked
      | .panicked m => .panicked m
      | .done (_, err) =>
        .done { s with
          client := { s.client with data := ch },
          handed := s.handed ++ [d],
          stdout :=
            match err with
            | some e => s.stdout ++ ["error:  " ++ e ++ "\n"]
            | none => s.stdout }

/-- The statement `s.quit <- true` of `Close` meeting the case `<-s.quit` of the sender's
select, on which the sender returns. A send on a closed channel panics; with no receiver
left the send blocks. -/
def quitSignal (s : System) : Res System :=
  if s.client.quitClosed then .panicked "send on closed channel"
  else
    match s.sender with
    | .running => .done { s with sender := .stopped, closing := true }
    | .stopped => .blocked

/-- The case `<-s.quit` of the sender's select on the closed channel: a receive on a closed
channel completes at once, and the sender returns. -/
def senderQuit (s : System) : Res System :=
  if s.client.quitClosed then
    match s.sender with
    | .running => .done { s with sender := .stopped }
    | .stopped => .blocked
  else .blocked

/-- The statements of `Close` after the send on `quit`; `connErr` is what
`(*s.conn).Close()` returns. -/
def closeRest (s : System) (connErr : Option Error) : Res (System × Option Error) :=
  if s.client.quitClosed then .panicked "close of closed channel"
  else if s.client.bufNil then .panicked "invalid memory address or nil pointer dereference"
  else
    .done ({ s with
      client := { s.client with quitClosed := true, bufNil := true, connClosed := true },
      closing := false }, connErr)

/-- The method `Close`, run to its end. -/
def Close (s : System) (connErr : Option Error) : Res (System × Option Error) :=
  match quitSignal s with
  | .done s1 => closeRest s1 connErr
  | .blocked => .blocked
  | .panicked m => .panicked m

/-- The atomic steps of the system. -/
inductive Label where
  /-- a caller runs one emission operation to its end -/
  | call (op : Op) (draw : Float32) (stat : String) (value : Int) (rate : Float32)
  /-- a caller runs `SetPrefix` -/
  | setPrefix (p : String)
  /-- the sender takes the data case of its select -/
  | senderData (w : Nat × Option Error) (f : Option Error)
  /-- a caller of `Close` completes its send on `quit`, which the sender receives -/
  | quitSignal
  /-- the sender takes the quit case of its select on the closed channel -/
  | senderQuit
  /-- that caller runs the rest of `Close` -/
  | closeRest (connErr : Option Error)

/-- One step of the system. -/
def step (l : Label) (s : System) : Res System :=
  match l with
  | .call op draw stat value rate =>
    match op.call s.client draw stat value rate with
    | .done (c, _) => .done { s with client := c }
    | .blocked => .blocked
    | .panicked m => .panicked m
  | .setPrefix p => .done { s with client := SetPrefix s.client p }
  | .senderData w f => senderData s w f
  | .quitSignal => quitSignal s
  | .senderQuit => senderQuit s
  | .closeRest connErr =>
    if s.closing then
      match closeRest s connErr with
      | .done (s1, _) => .done s1
      | .blocked => .blocked
      | .panicked m => .panicked m
    else .blocked

/-- The state after a sequence of steps, when each of them completes. -/
def run : List Label → System → Option System
  | [], s => some s
  | l :: ls, s =>
    match step l s with
    | .done s1 => run ls s1
    | _ => none

/-- The call outcome `r` from client state `s` is the enqueue of exactly `line`: with room
in the queue the call completes, `line` alone is appended and the returned error is nil;
with the queue full the call blocks. -/
def EnqueuesExactly (s : Client) (r : Res (Client × Option Error)) (line : String) : Prop :=
  (s.data.buf.length < s.data.cap →
    r = .done ({ s with data := { s.data with buf := s.data.buf ++ [line],
                                              sent := s.data.sent ++ [line] } }, none)) ∧
  (s.data.cap ≤ s.data.buf.length → r = .blocked)

/-- What a completed step did, by the kind of step. -/
inductive StepDid (s s1 : System) : Prop where
  /-- an emission call that returned at the sampling test -/
  | dropped (h : s1 = s)
  /-- an emission call that enqueued `line` -/
  | enqueued (line : String) (hroom : s.client.data.buf.length < s.client.data.cap)
      (h : s1 = { s with client := { s.client with
        data := { s.client.data with buf := s.client.data.buf ++ [line],
                                     sent := s.client.data.sent ++ [line] } } })
  /-- a change of prefix -/
  | renamed (p : String) (h : s1 = { s with client := { s.client with pfx := p } })
  /-- the sender dequeued `d` and handed it to `send`, which returned `err` -/
  | dequeued (d : String) (rest : List String) (err : Option Error)
      (hrun : s.sender = .running) (hbuf : s.client.bufNil = false)
      (hq : s.client.data.buf = d :: rest)
      (h : s1 = { s with
        client := { s.client with data := { s.client.data with buf := rest } },
        handed := s.handed ++ [d],
        stdout :=
          match err with
          | some e => s.stdout ++ ["error:  " ++ e ++ "\n"]
          | none => s.stdout })
  /-- the sender received the shutdown signal -/
  | signalled (hrun : s.sender = .running) (hopen : s.client.quitClosed = false)
      (h : s1 = { s with sender := .stopped, closing := true })
  /-- the sender found `quit` closed and returned -/
  | returned (hrun : s.sender = .running) (hclosed : s.client.quitClosed = true)
      (h : s1 = { s with sender := .stopped })
  /-- the rest of `Close` ran -/
  | closed (hclosing : s.closing = true)
      (h : s1 = { s with
        client := { s.client with quitClosed := true, bufNil := true, connClosed := true },
        closing := false })

/-- While the sender runs no `Close` is past its signal, and `buf` and `conn` are intact. -/
def SenderIntact (s : System) : Prop :=
  s.sender = .running →
    s.closing = false ∧ s.client.bufNil = false ∧ s.client.connClosed = false

/-! ## Sampling and encoding -/

theorem Float32.lt_one_eq_false_of_one_le (rate : Float32)
    (h : Float32.one.le rate = true) : rate.lt Float32.one = false := by
  simp only [Float32.le, Float32.lt, Bool.and_eq_true, Bool.not_eq_true', decide_eq_true_eq,
    Bool.and_eq_false_imp, decide_eq_false_iff_not] at h ⊢
  intro _ _
  omega

theorem submitLine_full_rate (s : Client) (draw : Float32) (stat value : String)
    (rate : Float32) (h : rate.lt Float32.one = false) :
    submitLine s draw stat value rate
      = some ((if s.pfx = "" then stat else s.pfx ++ "." ++ stat) ++ ":" ++ value) := by
  unfold submitLine
  by_cases hp : s.pfx = "" <;> simp [h, hp]

theorem submitLine_kept (s : Client) (draw : Float32) (stat value : String)
    (rate : Float32) (h : rate.lt Float32.one = true) (hk : draw.lt rate = true) :
    submitLine s draw stat value rate
      = some ((if s.pfx = "" then stat else s.pfx ++ "." ++ stat) ++ ":"
          ++ (value ++ "|@" ++ fmtF rate)) := by
  unfold submitLine
  by_cases hp : s.pfx = "" <;> simp [h, hk, hp]

theorem submitLine_dropped (s : Client) (draw : Float32) (stat value : String)
    (rate : Float32) (h : rate.lt Float32.one = true) (hk : draw.lt rate = false) :
    submitLine s draw stat value rate = none := by
  unfold submitLine
  simp [h, hk]

theorem submit_of_line (s : Client) (draw : Float32) (stat value : String) (rate : Float32)
    (line : String) (h : submitLine s draw stat value rate = some line) :
    EnqueuesExactly s (submit s draw stat value rate) line := by
  unfold EnqueuesExactly submit DataChan.send
  rw [h]
  constructor
  · intro hroom
    simp [hroom]
  · intro hfull
    have : ¬ s.data.buf.length < s.data.cap := by omega
    simp [this]

theorem submit_of_none (s : Client) (draw : Float32) (stat value : String) (rate : Float32)
    (h : submitLine s draw stat value rate = none) :
    submit s draw stat value rate = .done (s, none) := by
  unfold submit
  rw [h]

theorem not_enqueuesExactly_done_same (s : Client) (line : String) :
    ¬ EnqueuesExactly s (.done (s, none)) line := by
  intro ⟨h1, h2⟩
  rcases Nat.lt_or_ge s.data.buf.length s.data.cap with hlt | hge
  · have h := h1 hlt
    injection h with h
    injection h with h _
    have hb := congrArg (fun c => c.data.buf.length) h
    simp at hb
  · have h := h2 hge
    cases h

/-- C1: at a rate of one or more, whatever the draw, each of `Inc`, `Guage` and `Timing`
enqueues exactly one line, the name (bare stat for an empty prefix, prefix, dot and stat
otherwise), a colon, the decimal value, a bar and the unit `c`, `g` or `ms`, with no
sample-rate suffix. -/
theorem C1_full_rate_line (s : Client) (draw : Float32) (stat : String) (value : Int)
    (rate : Float32) (hrate : Float32.one.le rate = true) :
    EnqueuesExactly s (Inc s draw stat value rate)
      ((if s.pfx = "" then stat else s.pfx ++ "." ++ stat) ++ ":" ++ fmtD value ++ "|" ++ "c") ∧
    EnqueuesExactly s (Guage s draw stat value rate)
      ((if s.pfx = "" then stat else s.pfx ++ "." ++ stat) ++ ":" ++ fmtD value ++ "|" ++ "g") ∧
    EnqueuesExactly s (Timing s draw stat value rate)
      ((if s.pfx = "" then stat else s.pfx ++ "." ++ stat) ++ ":" ++ fmtD value ++ "|" ++ "ms") := by
  have h := Float32.lt_one_eq_false_of_one_le rate hrate
  refine ⟨?_, ?_, ?_⟩
  · have := submit_of_line s draw stat (fmtD value ++ "|c") rate _
      (submitLine_full_rate s draw stat _ rate h)
    simpa [Inc, String.append_assoc] using this
  · have := submit_of_line s draw stat (fmtD value ++ "|g") rate _
      (submitLine_full_rate s draw stat _ rate h)
    simpa [Guage, String.append_assoc] using this
  · have := submit_of_line s draw stat (fmtD value ++ "|ms") rate _
      (submitLine_full_rate s draw stat _ rate h)
    simpa [Timing, String.append_assoc] using this

/-- With prefix `app` and room in the queue, `Inc("foo", 5, 1.0)` enqueues `app.foo:5|c`. -/
theorem C1_full_rate_line_witness :
    Inc (newClient "app").client Float32.half "foo" 5 Float32.one
      = .done ({ (newClient "app").client with
          data := { cap := 100, buf := ["app.foo:5|c"], sent := ["app.foo:5|c"] } }, none) :=
  (C1_full_rate_line (newClient "app").client Float32.half "foo" 5 Float32.one
    (by decide)).1.1 (by decide)

/-- C2: at a rate below one and a draw in `[0, 1)`, `submit` enqueues a line exactly when
the draw is below the rate and otherwise returns with nothing enqueued; at a rate of zero
or less it never enqueues. -/
theorem C2_sampling_decision (s : Client) (draw : Float32) (stat value : String)
    (rate : Float32) (hrate : rate.lt Float32.one = true) (hdraw : draw.inUnit) :
    ((∃ line, EnqueuesExactly s (submit s draw stat value rate) line) ↔ draw.lt rate = true) ∧
    (draw.lt rate = false → submit s draw stat value rate = .done (s, none)) ∧
    (rate.le Float32.zero = true → submit s draw stat value rate = .done (s, none)) := by
  have hdrop : draw.lt rate = false → submit s draw stat value rate = .done (s, none) :=
    fun hk => submit_of_none s draw stat value rate
      (submitLine_dropped s draw stat value rate hrate hk)
  refine ⟨⟨?_, ?_⟩, hdrop, ?_⟩
  · rintro ⟨line, hl⟩
    by_contra hk
    have hk : draw.lt rate = false := by simpa using hk
    rw [hdrop hk] at hl
    exact not_enqueuesExactly_done_same s line hl
  · intro hk
    exact ⟨_, submit_of_line s draw stat value rate _
      (submitLine_kept s draw stat value rate hrate hk)⟩
  · intro hz
    apply hdrop
    have h0 := hdraw.1
    simp only [Float32.le, Float32.lt, Bool.and_eq_true, Bool.not_eq_true', decide_eq_true_eq,
      Bool.and_eq_false_imp, decide_eq_false_iff_not] at hz h0 ⊢
    intro _ _
    omega

/-- At rate zero and draw one half nothing is enqueued and `submit` returns nil. -/
theorem C2_sampling_decision_witness :
    submit (newClient "app").client Float32.half "foo" "5|c" Float32.zero
      = .done ((newClient "app").client, none) :=
  (C2_sampling_decision (newClient "app").client Float32.half "foo" "5|c" Float32.zero
    (by decide) (by decide)).2.2 (by decide)

theorem roundHalfEven_le (a b n : Nat) (hb : 0 < b) (h : a ≤ n * b) : roundHalfEven a b ≤ n := by
  unfold roundHalfEven
  have hq : a / b ≤ n := by
    calc a / b ≤ n * b / b := Nat.div_le_div_right h
      _ = n := Nat.mul_div_cancel n hb
  have hd := Nat.div_add_mod a b
  have hm := Nat.mod_lt a hb
  by_cases hlt : a / b < n
  · simp only []
    split_ifs <;> omega
  · have hqn : a / b = n := by omega
    have hr : a % b = 0 := by
      rw [hqn] at hd
      have : b * n = n * b := Nat.mul_comm b n
      omega
    simp only []
    split_ifs <;> omega

theorem roundHalfEven_near (a b : Nat) (hb : 0 < b) :
    2 * ((roundHalfEven a b * b : Int) - a).natAbs ≤ b := by
  unfold roundHalfEven
  have hd := Nat.div_add_mod a b
  have hm := Nat.mod_lt a hb
  have hd2 : (a : Int) = (b : Int) * ((a / b : Nat) : Int) + ((a % b : Nat) : Int) := by
    exact_mod_cast hd.symm
  simp only []
  split_ifs
  · have : ((a / b : Nat) : Int) * b - a = -((a % b : Nat) : Int) := by
      rw [hd2]; push_cast; ring
    rw [this]; omega
  · have : (((a / b + 1 : Nat) : Int)) * b - a = (b : Int) - ((a % b : Nat) : Int) := by
      conv_lhs => rw [hd2]
      push_cast; ring
    rw [this]; omega
  · have : ((a / b : Nat) : Int) * b - a = -((a % b : Nat) : Int) := by
      rw [hd2]; push_cast; ring
    rw [this]; omega
  · have : (((a / b + 1 : Nat) : Int)) * b - a = (b : Int) - ((a % b : Nat) : Int) := by
      conv_lhs => rw [hd2]
      push_cast; ring
    rw [this]; omega

theorem Float32.mag_one : Float32.one.mag = 2 ^ 149 := by decide

theorem Float32.mag_inf (x : Float32) (h : x.expo = 255) : 2 ^ 149 ≤ x.mag := by
  unfold Float32.mag
  rw [h]
  have h1 : (8388608 : Nat) * 2 ^ (255 - 1) ≤ (8388608 + x.frac) * 2 ^ (255 - 1) :=
    Nat.mul_le_mul_right _ (Nat.le_add_right _ _)
  have h2 : (2 : Nat) ^ 149 ≤ 8388608 * 2 ^ (255 - 1) := by norm_num
  simp only [show (255 : Nat) ≠ 0 by decide, if_false]
  exact le_trans h2 h1

/-- A rate below one that some draw of `[0, 1)` is below: finite, positive, magnitude
below `2^149` units. -/
theorem Float32.kept_rate (draw rate : Float32) (hrate : rate.lt Float32.one = true)
    (hdraw : draw.inUnit) (hkeep : draw.lt rate = true) :
    rate.isNaN = false ∧ rate.isInf = false ∧ rate.sign = false ∧ rate.mag < 2 ^ 149 := by
  have h0 := hdraw.1
  simp only [Float32.le, Float32.lt, Bool.and_eq_true, Bool.not_eq_true', decide_eq_true_eq]
    at hrate h0 hkeep
  obtain ⟨⟨hn, _⟩, hlt1⟩ := hrate
  obtain ⟨_, hlt⟩ := hkeep
  obtain ⟨_, hge⟩ := h0
  have hz : Float32.zero.key = 0 := by decide
  have h1 : Float32.one.key = ((2 ^ 149 : Nat) : Int) := by decide
  rw [hz] at hge
  rw [h1] at hlt1
  have hs : rate.sign = false := by
    by_contra hs
    have hs : rate.sign = true := by simpa using hs
    have hk : rate.key = -(rate.mag : Int) := by simp [Float32.key, hs]
    rw [hk] at hlt
    omega
  have hm : rate.mag < 2 ^ 149 := by
    have hk : rate.key = (rate.mag : Int) := by simp [Float32.key, hs]
    rw [hk] at hlt1
    exact_mod_cast hlt1
  refine ⟨hn, ?_, hs, hm⟩
  unfold Float32.isInf
  by_contra hi
  have he : rate.expo = 255 := by
    simp only [Bool.not_eq_false, Bool.and_eq_true, beq_iff_eq] at hi
    exact hi.1
  have := Float32.mag_inf rate he
  omega

/-- C3: at a rate below one, when the draw (in `[0, 1)`) is below the rate, the line each of
`Inc`, `Guage` and `Timing` enqueues is its full-rate line followed by `|@` and the rate
printed by `%f`; that print is the rate rounded to the nearest millionth, as integer part,
point and six digits, with no sign. -/
theorem C3_sampled_line (s : Client) (draw : Float32) (stat : String) (value : Int)
    (rate : Float32) (hrate : rate.lt Float32.one = true) (hdraw : draw.inUnit)
    (hkeep : draw.lt rate = true) :
    EnqueuesExactly s (Inc s draw stat value rate)
      ((if s.pfx = "" then stat else s.pfx ++ "." ++ stat) ++ ":" ++ fmtD value ++ "|" ++ "c"
        ++ "|@" ++ fmtF rate) ∧
    EnqueuesExactly s (Guage s draw stat value rate)
      ((if s.pfx = "" then stat else s.pfx ++ "." ++ stat) ++ ":" ++ fmtD value ++ "|" ++ "g"
        ++ "|@" ++ fmtF rate) ∧
    EnqueuesExactly s (Timing s draw stat value rate)
      ((if s.pfx = "" then stat else s.pfx ++ "." ++ stat) ++ ":" ++ fmtD value ++ "|" ++ "ms"
        ++ "|@" ++ fmtF rate) ∧
    fmtF rate = Nat.repr (micros rate / 1000000) ++ "."
      ++ String.mk (six (micros rate % 1000000)) ∧
    micros rate ≤ 1000000 ∧
    2 * (((micros rate * 2 ^ 149 : Nat) : Int) - ((rate.mag * 1000000 : Nat) : Int)).natAbs
      ≤ 2 ^ 149 := by
  obtain ⟨hn, hi, hs, hm⟩ := Float32.kept_rate draw rate hrate hdraw hkeep
  refine ⟨?_, ?_, ?_, ?_, ?_, ?_⟩
  · have := submit_of_line s draw stat (fmtD value ++ "|c") rate _
      (submitLine_kept s draw stat _ rate hrate hkeep)
    simpa [Inc, String.append_assoc] using this
  · have := submit_of_line s draw stat (fmtD value ++ "|g") rate _
      (submitLine_kept s draw stat _ rate hrate hkeep)
    simpa [Guage, String.append_assoc] using this
  · have := submit_of_line s draw stat (fmtD value ++ "|ms") rate _
      (submitLine_kept s draw stat _ rate hrate hkeep)
    simpa [Timing, String.append_assoc] using this
  · unfold fmtF
    simp [hn, hi, hs]
  · apply roundHalfEven_le _ _ _ (by positivity)
    have := Nat.mul_le_mul_right 1000000 (Nat.le_of_lt hm)
    simpa [Nat.mul_comm] using this
  · have := roundHalfEven_near (rate.mag * 1000000) (2 ^ 149) (by positivity)
    unfold micros
    push_cast at this ⊢
    exact this

/-- With prefix `app` and room in the queue, `Inc("foo", 5, 0.5)` kept by the sampler
enqueues `app.foo:5|c|@0.500000`. -/
theorem C3_sampled_line_witness :
    Inc (newClient "app").client Float32.zero "foo" 5 Float32.half
      = .done ({ (newClient "app").client with
          data := { cap := 100, buf := ["app.foo:5|c|@0.500000"],
                    sent := ["app.foo:5|c|@0.500000"] } }, none) :=
  (C3_sampled_line (newClient "app").client Float32.zero "foo" 5 Float32.half
    (by decide) (by decide) (by decide)).1.1 (by decide)

theorem neg64_eq (v : Int) (hv : isInt64 v) :
    neg64 v = if v = -9223372036854775808 then -9223372036854775808 else -v := by
  unfold isInt64 at hv
  unfold neg64 wrap64
  split_ifs with h
  · subst h; decide
  · omega

/-- C4: for every `int64` value, `Dec` has the outcome of `Inc` on the negated value, the
negation being that of 64-bit two's complement: `-v`, except that `-2^63` stays `-2^63`. -/
theorem C4_dec_is_inc_negated (s : Client) (draw : Float32) (stat : String) (v : Int)
    (rate : Float32) (hv : isInt64 v) :
    Dec s draw stat v rate
      = Inc s draw stat (if v = -9223372036854775808 then -9223372036854775808 else -v) rate ∧
    isInt64 (if v = -9223372036854775808 then -9223372036854775808 else -v) := by
  constructor
  · unfold Dec
    rw [neg64_eq v hv]
  · unfold isInt64 at hv ⊢
    split_ifs <;> omega

/-- The call `Dec(stat, 7, 1.0)` is `Inc(stat, -7, 1.0)`. -/
theorem C4_dec_is_inc_negated_witness :
    Dec (newClient "app").client Float32.zero "foo" 7 Float32.one
      = Inc (newClient "app").client Float32.zero "foo" (-7) Float32.one :=
  (C4_dec_is_inc_negated (newClient "app").client Float32.zero "foo" 7 Float32.one
    (by decide)).1

theorem submit_error_nil (s : Client) (draw : Float32) (stat value : String) (rate : Float32) :
    (∀ m, submit s draw stat value rate ≠ .panicked m) ∧
    (∀ c e, submit s draw stat value rate = .done (c, e) → e = none) ∧
    (rate.lt Float32.one = true → draw.lt rate = false →
      submit s draw stat value rate = .done (s, none)) ∧
    (¬ (rate.lt Float32.one = true ∧ draw.lt rate = false) →
      s.data.buf.length < s.data.cap →
      ∃ c, submit s draw stat value rate = .done (c, none) ∧
        c.data.buf.length = s.data.buf.length + 1) := by
  refine ⟨?_, ?_, ?_, ?_⟩
  · intro m
    unfold submit DataChan.send
    cases submitLine s draw stat value rate with
    | none => simp
    | some line => by_cases h : s.data.buf.length < s.data.cap <;> simp [h]
  · intro c e
    unfold submit DataChan.send
    cases submitLine s draw stat value rate with
    | none =>
      intro h
      injection h with h
      injection h with _ h
      exact h.symm
    | some line =>
      by_cases h : s.data.buf.length < s.data.cap
      · simp only [h, if_true]
        intro h
        injection h with h
        injection h with _ h
        exact h.symm
      · simp [h]
  · intro h1 h2
    exact submit_of_none s draw stat value rate (submitLine_dropped s draw stat value rate h1 h2)
  · intro hk hroom
    have hline : ∃ line, submitLine s draw stat value rate = some line := by
      by_cases h1 : rate.lt Float32.one = true
      · have h2 : draw.lt rate = true := by
          by_contra h2
          exact hk ⟨h1, by simpa using h2⟩
        exact ⟨_, submitLine_kept s draw stat value rate h1 h2⟩
      · exact ⟨_, submitLine_full_rate s draw stat value rate (by simpa using h1)⟩
    obtain ⟨line, hl⟩ := hline
    have := (submit_of_line s draw stat value rate line hl).1 hroom
    exact ⟨_, this, by simp⟩

theorem call_error_nil (op : Op) (s : Client) (draw : Float32) (stat : String) (value : Int)
    (rate : Float32) :
    ∀ c e, op.call s draw stat value rate = .done (c, e) → e = none := by
  cases op
  · exact (submit_error_nil s draw stat (fmtD value ++ "|c") rate).2.1
  · exact (submit_error_nil s draw stat (fmtD (neg64 value) ++ "|c") rate).2.1
  · exact (submit_error_nil s draw stat (fmtD value ++ "|g") rate).2.1
  · exact (submit_error_nil s draw stat (fmtD value ++ "|ms") rate).2.1

/-- C5: each of `Inc`, `Dec`, `Guage` and `Timing` never panics and every error it returns
is nil; on a sampling drop it returns nil with the client unchanged, and otherwise, with
room in the queue, it returns nil with one more line queued. -/
theorem C5_nil_error (op : Op) (s : Client) (draw : Float32) (stat : String) (value : Int)
    (rate : Float32) :
    (∀ m, op.call s draw stat value rate ≠ .panicked m) ∧
    (∀ c e, op.call s draw stat value rate = .done (c, e) → e = none) ∧
    (rate.lt Float32.one = true → draw.lt rate = false →
      op.call s draw stat value rate = .done (s, none)) ∧
    (¬ (rate.lt Float32.one = true ∧ draw.lt rate = false) →
      s.data.buf.length < s.data.cap →
      ∃ c, op.call s draw stat value rate = .done (c, none) ∧
        c.data.buf.length = s.data.buf.length + 1) := by
  cases op
  · exact submit_error_nil s draw stat (fmtD value ++ "|c") rate
  · exact submit_error_nil s draw stat (fmtD (neg64 value) ++ "|c") rate
  · exact submit_error_nil s draw stat (fmtD value ++ "|g") rate
  · exact submit_error_nil s draw stat (fmtD value ++ "|ms") rate

/-! ## The queue and the sender -/

theorem submit_done (s c : Client) (draw : Float32) (stat value : String) (rate : Float32)
    (e : Option Error) (h : submit s draw stat value rate = .done (c, e)) :
    c = s ∨ ∃ line, s.data.buf.length < s.data.cap ∧
      c = { s with data := { s.data with buf := s.data.buf ++ [line],
                                         sent := s.data.sent ++ [line] } } := by
  unfold submit DataChan.send at h
  cases hl : submitLine s draw stat value rate with
  | none =>
    rw [hl] at h
    injection h with h
    injection h with h _
    exact Or.inl h.symm
  | some line =>
    rw [hl] at h
    by_cases hroom : s.data.buf.length < s.data.cap
    · simp only [hroom, if_true] at h
      injection h with h
      injection h with h _
      exact Or.inr ⟨line, hroom, h.symm⟩
    · simp [hroom] at h

theorem call_done (op : Op) (s c : Client) (draw : Float32) (stat : String) (value : Int)
    (rate : Float32) (e : Option Error) (h : op.call s draw stat value rate = .done (c, e)) :
    c = s ∨ ∃ line, s.data.buf.length < s.data.cap ∧
      c = { s with data := { s.data with buf := s.data.buf ++ [line],
                                         sent := s.data.sent ++ [line] } } := by
  cases op
  · exact submit_done s c draw stat _ rate e h
  · exact submit_done s c draw stat _ rate e h
  · exact submit_done s c draw stat _ rate e h
  · exact submit_done s c draw stat _ rate e h

theorem senderData_done (s s1 : System) (w : Nat × Option Error) (f : Option Error)
    (h : senderData s w f = .done s1) : StepDid s s1 := by
  unfold senderData at h
  cases hs : s.sender with
  | stopped => rw [hs] at h; cases h
  | running =>
    rw [hs] at h
    simp only [] at h
    unfold DataChan.recv at h
    cases hq : s.client.data.buf with
    | nil => rw [hq] at h; cases h
    | cons d rest =>
      rw [hq] at h
      simp only [] at h
      unfold send at h
      cases hb : s.client.bufNil with
      | true => rw [hb] at h; simp at h
      | false =>
        rw [hb] at h
        simp only [Bool.false_eq_true, if_false] at h
        rcases w with ⟨n, we⟩
        cases we with
        | some e =>
          simp only [] at h
          injection h with h
          exact .dequeued d rest (some e) hs hb hq (by subst h; simp [hs, hb])
        | none =>
          cases f with
          | some e =>
            simp only [] at h
            injection h with h
            exact .dequeued d rest (some e) hs hb hq (by subst h; simp [hs, hb])
          | none =>
            simp only [] at h
            injection h with h
            exact .dequeued d rest none hs hb hq (by subst h; simp [hs, hb])

theorem quitSignal_done (s s1 : System) (h : quitSignal s = .done s1) :
    s.sender = .running ∧ s.client.quitClosed = false ∧
      s1 = { s with sender := .stopped, closing := true } := by
  unfold quitSignal at h
  cases hc : s.client.quitClosed with
  | true => rw [hc] at h; simp at h
  | false =>
    rw [hc] at h
    simp only [Bool.false_eq_true, if_false] at h
    cases hs : s.sender with
    | stopped => rw [hs] at h; cases h
    | running =>
      rw [hs] at h
      simp only [] at h
      injection h with h
      exact ⟨rfl, rfl, h.symm⟩

theorem closeRest_done (s s1 : System) (connErr e : Option Error)
    (h : closeRest s connErr = .done (s1, e)) :
    s.client.quitClosed = false ∧ s.client.bufNil = false ∧ e = connErr ∧
      s1 = { s with
        client := { s.client with quitClosed := true, bufNil := true, connClosed := true },
        closing := false } := by
  unfold closeRest at h
  cases hc : s.client.quitClosed with
  | true => rw [hc] at h; simp at h
  | false =>
    cases hb : s.client.bufNil with
    | true => rw [hc, hb] at h; simp at h
    | false =>
      rw [hc, hb] at h
      simp only [Bool.false_eq_true, if_false] at h
      injection h with h
      injection h with h1 h2
      exact ⟨rfl, rfl, h2.symm, h1.symm⟩

theorem step_done (l : Label) (s s1 : System) (h : step l s = .done s1) : StepDid s s1 := by
  cases l with
  | call op draw stat value rate =>
    simp only [step] at h
    cases hc : op.call s.client draw stat value rate with
    | blocked => rw [hc] at h; cases h
    | panicked m => rw [hc] at h; cases h
    | done ce =>
      rcases ce with ⟨c, e⟩
      rw [hc] at h
      simp only [] at h
      injection h with h
      rcases call_done op s.client c draw stat value rate e hc with hsame | ⟨line, hroom, hcl⟩
      · exact .dropped (by rw [← h, hsame])
      · exact .enqueued line hroom (by rw [← h, hcl])
  | setPrefix p =>
    simp only [step, SetPrefix] at h
    injection h with h
    exact .renamed p h.symm
  | senderData w f => exact senderData_done s s1 w f h
  | quitSignal =>
    obtain ⟨h1, h2, h3⟩ := quitSignal_done s s1 h
    exact .signalled h1 h2 h3
  | senderQuit =>
    simp only [step, senderQuit] at h
    cases hc : s.client.quitClosed with
    | false => rw [hc] at h; simp at h
    | true =>
      rw [hc] at h
      simp only [if_true] at h
      cases hs : s.sender with
      | stopped => rw [hs] at h; cases h
      | running =>
        rw [hs] at h
        simp only [] at h
        injection h with h
        exact .returned hs hc (by subst h; simp [hs])
  | closeRest connErr =>
    simp only [step] at h
    cases hcl : s.closing with
    | false => rw [hcl] at h; simp at h
    | true =>
      rw [hcl] at h
      simp only [if_true] at h
      cases hr : closeRest s connErr with
      | blocked => rw [hr] at h; cases h
      | panicked m => rw [hr] at h; cases h
      | done se =>
        rcases se with ⟨s2, e⟩
        rw [hr] at h
        simp only [] at h
        injection h with h
        obtain ⟨_, _, _, h4⟩ := closeRest_done s s2 connErr e hr
        exact .closed hcl (by rw [← h, h4])

/-- A property kept by every completed step holds after every run. -/
theorem run_preserves (P : System → Prop)
    (hstep : ∀ l s s1, P s → step l s = .done s1 → P s1) :
    ∀ (ls : List Label) (s s1 : System), P s → run ls s = some s1 → P s1 := by
  intro ls
  induction ls with
  | nil =>
    intro s s1 hP h
    simp only [run] at h
    injection h with h
    rw [← h]; exact hP
  | cons l ls ih =>
    intro s s1 hP h
    simp only [run] at h
    cases hs : step l s with
    | blocked => rw [hs] at h; cases h
    | panicked m => rw [hs] at h; cases h
    | done s2 =>
      rw [hs] at h
      exact ih s2 s1 (hstep l s s2 hP hs) h

theorem fifo_step (l : Label) (s s1 : System)
    (hinv : s.handed ++ s.client.data.buf = s.client.data.sent)
    (h : step l s = .done s1) : s1.handed ++ s1.client.data.buf = s1.client.data.sent := by
  cases step_done l s s1 h with
  | dropped h => rw [h]; exact hinv
  | enqueued line _ h => rw [h]; simp [← hinv]
  | renamed p h => rw [h]; exact hinv
  | dequeued d rest err _ _ hq h => rw [h]; simp [← hinv, hq]
  | signalled _ _ h => rw [h]; exact hinv
  | returned _ _ h => rw [h]; exact hinv
  | closed _ h => rw [h]; exact hinv

theorem cap_step (l : Label) (s s1 : System)
    (hinv : s.client.data.cap = 100 ∧ s.client.data.buf.length ≤ 100)
    (h : step l s = .done s1) :
    s1.client.data.cap = 100 ∧ s1.client.data.buf.length ≤ 100 := by
  obtain ⟨hc, hl⟩ := hinv
  cases step_done l s s1 h with
  | dropped h => rw [h]; exact ⟨hc, hl⟩
  | enqueued line hroom h =>
    rw [h]
    refine ⟨hc, ?_⟩
    simp only [List.length_append, List.length_singleton]
    omega
  | renamed p h => rw [h]; exact ⟨hc, hl⟩
  | dequeued d rest err _ _ hq h =>
    rw [h]
    refine ⟨hc, ?_⟩
    rw [hq] at hl
    simp only [List.length_cons] at hl ⊢
    omega
  | signalled _ _ h => rw [h]; exact ⟨hc, hl⟩
  | returned _ _ h => rw [h]; exact ⟨hc, hl⟩
  | closed _ h => rw [h]; exact ⟨hc, hl⟩

theorem intact_step (l : Label) (s s1 : System) (hinv : SenderIntact s)
    (h : step l s = .done s1) : SenderIntact s1 := by
  unfold SenderIntact at hinv ⊢
  cases step_done l s s1 h with
  | dropped h => rw [h]; exact hinv
  | enqueued line _ h => rw [h]; exact hinv
  | renamed p h => rw [h]; exact hinv
  | dequeued d rest err _ _ _ h => rw [h]; exact hinv
  | signalled _ _ h => rw [h]; intro hr; cases hr
  | returned _ _ h => rw [h]; intro hr; cases hr
  | closed hcl h =>
    rw [h]
    intro hr
    have := (hinv hr).1
    rw [hcl] at this
    cases this

theorem stopped_step (l : Label) (s s1 : System) (hs : s.sender = .stopped)
    (h : step l s = .done s1) :
    s1.sender = .stopped ∧ s1.handed = s.handed ∧
      s.client.data.buf <+: s1.client.data.buf := by
  cases step_done l s s1 h with
  | dropped h => rw [h]; exact ⟨hs, rfl, List.prefix_refl _⟩
  | enqueued line _ h => rw [h]; exact ⟨hs, rfl, List.prefix_append _ _⟩
  | renamed p h => rw [h]; exact ⟨hs, rfl, List.prefix_refl _⟩
  | dequeued d rest err hrun _ _ h => rw [hs] at hrun; cases hrun
  | signalled hrun _ h => rw [hs] at hrun; cases hrun
  | returned hrun _ h => rw [hs] at hrun; cases hrun
  | closed _ h => rw [h]; exact ⟨hs, rfl, List.prefix_refl _⟩

theorem stopped_run (ls : List Label) :
    ∀ (s s1 : System), s.sender = .stopped → run ls s = some s1 →
      s1.sender = .stopped ∧ s1.handed = s.handed ∧
        s.client.data.buf <+: s1.client.data.buf := by
  induction ls with
  | nil =>
    intro s s1 hs h
    simp only [run] at h
    injection h with h
    rw [← h]; exact ⟨hs, rfl, List.prefix_refl _⟩
  | cons l ls ih =>
    intro s s1 hs h
    simp only [run] at h
    cases hst : step l s with
    | blocked => rw [hst] at h; cases h
    | panicked m => rw [hst] at h; cases h
    | done s2 =>
      rw [hst] at h
      obtain ⟨h1, h2, h3⟩ := stopped_step l s s2 hs hst
      obtain ⟨h4, h5, h6⟩ := ih s2 s1 h1 h
      exact ⟨h4, h5.trans h2, h3.trans h6⟩

/-- C6: in every state reached from `newClient`, the lines the sender has handed to `send`
followed by the lines still in the queue are the lines sent on the queue so far, in order;
so the handed lines are an initial part of the enqueued ones. -/
theorem C6_fifo_order (p : String) (ls : List Label) (s : System)
    (h : run ls (newClient p) = some s) :
    s.handed ++ s.client.data.buf = s.client.data.sent ∧
    s.handed <+: s.client.data.sent := by
  have hinv : s.handed ++ s.client.data.buf = s.client.data.sent :=
    run_preserves (fun s => s.handed ++ s.client.data.buf = s.client.data.sent)
      fifo_step ls (newClient p) s rfl h
  exact ⟨hinv, by rw [← hinv]; exact List.prefix_append _ _⟩

/-- Three lines enqueued and two dequeued: the two handed over are the first two. -/
theorem C6_fifo_order_witness :
    ["app.a:1|c", "app.b:-2|c"] ++ ["app.c:3|ms"]
        = ["app.a:1|c", "app.b:-2|c", "app.c:3|ms"] ∧
      ["app.a:1|c", "app.b:-2|c"] <+: ["app.a:1|c", "app.b:-2|c", "app.c:3|ms"] :=
  C6_fifo_order "app"
    [.call .inc Float32.zero "a" 1 Float32.one, .call .dec Float32.zero "b" 2 Float32.one,
     .senderData (9, none) none, .call .timing Float32.zero "c" 3 Float32.one,
     .senderData (0, some "refused") none]
    { client :=
        { bufNil := false, connClosed := false, pfx := "app",
          data := { cap := 100, buf := ["app.c:3|ms"],
                    sent := ["app.a:1|c", "app.b:-2|c", "app.c:3|ms"] },
          quitClosed := false },
      sender := .running, handed := ["app.a:1|c", "app.b:-2|c"],
      stdout := ["error:  refused\n"], closing := false }
    (by decide)

theorem call_enqueues (op : Op) (s : Client) (draw : Float32) (stat : String) (value : Int)
    (rate : Float32) (hkeep : ¬ (rate.lt Float32.one = true ∧ draw.lt rate = false)) :
    ∃ line, EnqueuesExactly s (op.call s draw stat value rate) line := by
  have hline : ∀ v : String, ∃ line, submitLine s draw stat v rate = some line := by
    intro v
    by_cases h1 : rate.lt Float32.one = true
    · have h2 : draw.lt rate = true := by
        by_contra h2
        exact hkeep ⟨h1, by simpa using h2⟩
      exact ⟨_, submitLine_kept s draw stat v rate h1 h2⟩
    · exact ⟨_, submitLine_full_rate s draw stat v rate (by simpa using h1)⟩
  cases op
  · obtain ⟨line, hl⟩ := hline (fmtD value ++ "|c")
    exact ⟨line, submit_of_line s draw stat _ rate line hl⟩
  · obtain ⟨line, hl⟩ := hline (fmtD (neg64 value) ++ "|c")
    exact ⟨line, submit_of_line s draw stat _ rate line hl⟩
  · obtain ⟨line, hl⟩ := hline (fmtD value ++ "|g")
    exact ⟨line, submit_of_line s draw stat _ rate line hl⟩
  · obtain ⟨line, hl⟩ := hline (fmtD value ++ "|ms")
    exact ⟨line, submit_of_line s draw stat _ rate line hl⟩

theorem call_step_room (op : Op) (s : System) (draw : Float32) (stat : String) (value : Int)
    (rate : Float32) (hkeep : ¬ (rate.lt Float32.one = true ∧ draw.lt rate = false))
    (hroom : s.client.data.buf.length < s.client.data.cap) :
    ∃ line, step (.call op draw stat value rate) s
      = .done { s with client := { s.client with
          data := { s.client.data with buf := s.client.data.buf ++ [line],
                                       sent := s.client.data.sent ++ [line] } } } := by
  obtain ⟨line, hl⟩ := call_enqueues op s.client draw stat value rate hkeep
  refine ⟨line, ?_⟩
  simp only [step]
  rw [hl.1 hroom]

theorem call_step_full (op : Op) (s : System) (draw : Float32) (stat : String) (value : Int)
    (rate : Float32) (hkeep : ¬ (rate.lt Float32.one = true ∧ draw.lt rate = false))
    (hfull : s.client.data.cap ≤ s.client.data.buf.length) :
    step (.call op draw stat value rate) s = .blocked := by
  obtain ⟨line, hl⟩ := call_enqueues op s.client draw stat value rate hkeep
  simp only [step]
  rw [hl.2 hfull]

theorem senderData_running (s : System) (d : String) (rest : List String)
    (w : Nat × Option Error) (f : Option Error) (hrun : s.sender = .running)
    (hbuf : s.client.bufNil = false) (hq : s.client.data.buf = d :: rest) :
    ∃ s1, step (.senderData w f) s = .done s1 ∧ s1.sender = .running ∧
      s1.handed = s.handed ++ [d] ∧ s1.client.data.buf = rest ∧
      s1.client.data.cap = s.client.data.cap ∧ s1.client.bufNil = false ∧
      s1.stdout =
        (match w.2 with
         | some e => s.stdout ++ ["error:  " ++ e ++ "\n"]
         | none =>
           match f with
           | some e => s.stdout ++ ["error:  " ++ e ++ "\n"]
           | none => s.stdout) := by
  have hstep : step (.senderData w f) s
      = .done { s with
          client := { s.client with data := { s.client.data with buf := rest } },
          handed := s.handed ++ [d],
          stdout :=
            (match w.2 with
             | some e => s.stdout ++ ["error:  " ++ e ++ "\n"]
             | none =>
               match f with
               | some e => s.stdout ++ ["error:  " ++ e ++ "\n"]
               | none => s.stdout) } := by
    rcases w with ⟨n, we⟩
    cases we with
    | some e => simp [step, senderData, DataChan.recv, send, hrun, hbuf, hq]
    | none =>
      cases f with
      | some e => simp [step, senderData, DataChan.recv, send, hrun, hbuf, hq]
      | none => simp [step, senderData, DataChan.recv, send, hrun, hbuf, hq]
  exact ⟨_, hstep, hrun, rfl, rfl, rfl, hbuf, rfl⟩

/-- C7: in every state reached from `newClient` the queue has capacity 100 and holds at most
100 lines; an emission call that is not a sampling drop completes exactly when the queue
holds fewer than 100 lines and blocks at 100; when it completes its line is appended and
nothing queued or handed over is lost, and the error it returns is nil; at 100 lines one
dequeue by the running sender leaves 99 and the call can complete. -/
theorem C7_queue_capacity (p : String) (ls : List Label) (s : System)
    (h : run ls (newClient p) = some s)
    (op : Op) (draw : Float32) (stat : String) (value : Int) (rate : Float32)
    (hkeep : ¬ (rate.lt Float32.one = true ∧ draw.lt rate = false)) :
    s.client.data.cap = 100 ∧ s.client.data.buf.length ≤ 100 ∧
    ((∃ s1, step (.call op draw stat value rate) s = .done s1)
      ↔ s.client.data.buf.length < 100) ∧
    (s.client.data.buf.length = 100 → step (.call op draw stat value rate) s = .blocked) ∧
    (∀ s1, step (.call op draw stat value rate) s = .done s1 →
      ∃ line, s1.client.data.buf = s.client.data.buf ++ [line] ∧
        s1.client.data.sent = s.client.data.sent ++ [line] ∧ s1.handed = s.handed) ∧
    (∀ c e, op.call s.client draw stat value rate = .done (c, e) → e = none) ∧
    (s.client.data.buf.length = 100 → s.sender = .running →
      ∀ w f, ∃ s1, step (.senderData w f) s = .done s1 ∧
        s1.client.data.buf.length = 99 ∧
        ∃ s2, step (.call op draw stat value rate) s1 = .done s2) := by
  obtain ⟨hcap, hlen⟩ :=
    run_preserves (fun s => s.client.data.cap = 100 ∧ s.client.data.buf.length ≤ 100)
      cap_step ls (newClient p) s ⟨rfl, Nat.zero_le _⟩ h
  have hint : SenderIntact s :=
    run_preserves SenderIntact intact_step ls (newClient p) s
      (fun _ => ⟨rfl, rfl, rfl⟩) h
  refine ⟨hcap, hlen, ⟨?_, ?_⟩, ?_, ?_, ?_, ?_⟩
  · rintro ⟨s1, hs1⟩
    by_contra hfull
    rw [call_step_full op s draw stat value rate hkeep (by omega)] at hs1
    cases hs1
  · intro hroom
    obtain ⟨line, hl⟩ := call_step_room op s draw stat value rate hkeep (by omega)
    exact ⟨_, hl⟩
  · intro hfull
    exact call_step_full op s draw stat value rate hkeep (by omega)
  · intro s1 hs1
    by_cases hroom : s.client.data.buf.length < s.client.data.cap
    · obtain ⟨line, hl⟩ := call_step_room op s draw stat value rate hkeep hroom
      rw [hl] at hs1
      injection hs1 with hs1
      exact ⟨line, by rw [← hs1], by rw [← hs1], by rw [← hs1]⟩
    · rw [call_step_full op s draw stat value rate hkeep (by omega)] at hs1
      cases hs1
  · exact (call_error_nil op s.client draw stat value rate)
  · intro hfull hrun w f
    obtain ⟨_, hbuf, _⟩ := hint hrun
    cases hq : s.client.data.buf with
    | nil => rw [hq] at hfull; simp at hfull
    | cons d rest =>
      obtain ⟨s1, hs1, _, _, hb, hc, _, _⟩ := senderData_running s d rest w f hrun hbuf hq
      have hlen1 : s1.client.data.buf.length = 99 := by
        rw [hb]
        rw [hq] at hfull
        simp only [List.length_cons] at hfull
        omega
      refine ⟨s1, hs1, hlen1, ?_⟩
      obtain ⟨line, hl⟩ := call_step_room op s1 draw stat value rate hkeep (by omega)
      exact ⟨_, hl⟩

set_option maxRecDepth 100000 in
/-- A queue filled by 100 calls of `Inc`: the next call blocks. -/
theorem C7_queue_capacity_witness :
    step (.call .inc Float32.zero "a" 1 Float32.one)
      { client :=
          { bufNil := false, connClosed := false, pfx := "app",
            data := { cap := 100, buf := List.replicate 100 "app.a:1|c",
                      sent := List.replicate 100 "app.a:1|c" },
            quitClosed := false },
        sender := .running, handed := [], stdout := [], closing := false } = .blocked :=
  (C7_queue_capacity "app" (List.replicate 100 (.call .inc Float32.zero "a" 1 Float32.one))
    { client :=
        { bufNil := false, connClosed := false, pfx := "app",
          data := { cap := 100, buf := List.replicate 100 "app.a:1|c",
                    sent := List.replicate 100 "app.a:1|c" },
          quitClosed := false },
      sender := .running, handed := [], stdout := [], closing := false }
    (by decide) .inc Float32.zero "a" 1 Float32.one (by decide)).2.2.2.1 (by decide)

/-- C8: once the sender has received the shutdown signal it is stopped, and in every state
reached afterwards it is still stopped, the lines handed to `send` are the same, the lines
that were queued at the signal are still queued, and the sender's dequeue step is blocked. -/
theorem C8_stopped_for_good (s0 s s1 : System) (ls : List Label)
    (hq : step .quitSignal s0 = .done s) (hr : run ls s = some s1) :
    s.sender = .stopped ∧ s.handed = s0.handed ∧ s.client.data.buf = s0.client.data.buf ∧
    s1.sender = .stopped ∧ s1.handed = s.handed ∧
    s.client.data.buf <+: s1.client.data.buf ∧
    (∀ w f, step (.senderData w f) s1 = .blocked) := by
  obtain ⟨_, _, hs⟩ := quitSignal_done s0 s hq
  have hstop : s.sender = .stopped := by rw [hs]
  obtain ⟨h1, h2, h3⟩ := stopped_run ls s s1 hstop hr
  refine ⟨hstop, by rw [hs], by rw [hs], h1, h2, h3, ?_⟩
  intro w f
  simp only [step, senderData, h1]

/-- A line is queued when the sender is signalled; after the rest of `Close` and one more
call it is still queued, nothing was handed over, and the dequeue step is blocked. -/
theorem C8_stopped_for_good_witness :
    (SenderState.stopped = SenderState.stopped ∧ ([] : List String) = [] ∧
      ["app.a:1|c"] = ["app.a:1|c"] ∧
      SenderState.stopped = SenderState.stopped ∧ ([] : List String) = [] ∧
      ["app.a:1|c"] <+: ["app.a:1|c", "app.b:2|g"] ∧
      ∀ w f, step (.senderData w f)
        { client :=
            { bufNil := true, connClosed := true, pfx := "app",
              data := { cap := 100, buf := ["app.a:1|c", "app.b:2|g"],
                        sent := ["app.a:1|c", "app.b:2|g"] },
              quitClosed := true },
          sender := .stopped, handed := [], stdout := [], closing := false } = .blocked) :=
  C8_stopped_for_good
    { client :=
        { bufNil := false, connClosed := false, pfx := "app",
          data := { cap := 100, buf := ["app.a:1|c"], sent := ["app.a:1|c"] },
          quitClosed := false },
      sender := .running, handed := [], stdout := [], closing := false }
    { client :=
        { bufNil := false, connClosed := false, pfx := "app",
          data := { cap := 100, buf := ["app.a:1|c"], sent := ["app.a:1|c"] },
          quitClosed := false },
      sender := .stopped, handed := [], stdout := [], closing := true }
    { client :=
        { bufNil := true, connClosed := true, pfx := "app",
          data := { cap := 100, buf := ["app.a:1|c", "app.b:2|g"],
                    sent := ["app.a:1|c", "app.b:2|g"] },
          quitClosed := true },
      sender := .stopped, handed := [], stdout := [], closing := false }
    [.closeRest none, .call .guage Float32.zero "b" 2 Float32.one]
    (by decide) (by decide)

/-- C9 as stated fails: on the client `newClient` gives, a first `Close` returns, and a
second `Close` on the state it leaves panics on its send on the closed `quit` channel. -/
theorem C9_second_close_panics :
    Close (newClient "app") none
      = .done ({ client :=
                  { bufNil := true, connClosed := true, pfx := "app",
                    data := { cap := 100, buf := [], sent := [] }, quitClosed := true },
                 sender := .stopped, handed := [], stdout := [], closing := false }, none) ∧
    Close { client :=
              { bufNil := true, connClosed := true, pfx := "app",
                data := { cap := 100, buf := [], sent := [] }, quitClosed := true },
            sender := .stopped, handed := [], stdout := [], closing := false } none
      = .panicked "send on closed channel" := by
  decide

/-- C9, amended: when a `Close` has returned, it returned what closing the connection
returned, the sender is stopped and `quit` is closed; every further `Close` on the state it
left panics at its first statement, the send on the closed `quit` channel, and so does not
return. -/
theorem C9_close_once (s s1 : System) (connErr e : Option Error)
    (h : Close s connErr = .done (s1, e)) :
    e = connErr ∧ s1.sender = .stopped ∧ s1.client.quitClosed = true ∧
    s1.client.connClosed = true ∧ s1.handed = s.handed ∧
    s1.client.data = s.client.data ∧
    ∀ connErr2, quitSignal s1 = .panicked "send on closed channel" ∧
      Close s1 connErr2 = .panicked "send on closed channel" := by
  unfold Close at h
  cases hq : quitSignal s with
  | blocked => rw [hq] at h; cases h
  | panicked m => rw [hq] at h; cases h
  | done s2 =>
    rw [hq] at h
    simp only [] at h
    obtain ⟨_, _, h2⟩ := quitSignal_done s s2 hq
    obtain ⟨_, _, he, h1⟩ := closeRest_done s2 s1 connErr e h
    have hc : s1.client.quitClosed = true := by rw [h1]
    refine ⟨he, by rw [h1, h2], hc, by rw [h1], by rw [h1, h2], by rw [h1, h2], ?_⟩
    intro connErr2
    have hp : quitSignal s1 = .panicked "send on closed channel" := by
      unfold quitSignal
      rw [hc]
      rfl
    exact ⟨hp, by unfold Close; rw [hp]⟩

/-- After `Close` returned the connection's error, a second `Close` panics. -/
theorem C9_close_once_witness :
    Close { client :=
              { bufNil := true, connClosed := true, pfx := "app",
                data := { cap := 100, buf := [], sent := [] }, quitClosed := true },
            sender := .stopped, handed := [], stdout := [], closing := false } none
      = .panicked "send on closed channel" :=
  ((C9_close_once (newClient "app") _ (some "use of closed network connection")
      (some "use of closed network connection") (by decide)).2.2.2.2.2.2 none).2

/-- C10: in a state reached from `newClient` with the sender running and a line at the head
of the queue, when the write or the flush fails, `send` returns that error, the sender's
step completes, the sender is still running, the line was dequeued and handed over, the
error is printed, the next dequeue step hands over the next queued line, and every error
the emission calls return is still nil. -/
theorem C10_send_error_not_fatal (p : String) (ls : List Label) (s : System)
    (h : run ls (newClient p) = some s) (d : String) (rest : List String)
    (w : Nat × Option Error) (f : Option Error) (e : Error)
    (hrun : s.sender = .running) (hq : s.client.data.buf = d :: rest)
    (herr : w.2 = some e ∨ (w.2 = none ∧ f = some e)) :
    send s.client d w f = .done (w.1, some e) ∧
    ∃ s1, step (.senderData w f) s = .done s1 ∧ s1.sender = .running ∧
      s1.handed = s.handed ++ [d] ∧ s1.client.data.buf = rest ∧
      s1.stdout = s.stdout ++ ["error:  " ++ e ++ "\n"] ∧
      (∀ d2 rest2 w2 f2, rest = d2 :: rest2 →
        ∃ s2, step (.senderData w2 f2) s1 = .done s2 ∧ s2.sender = .running ∧
          s2.handed = s.handed ++ [d, d2] ∧ s2.client.data.buf = rest2) ∧
      (∀ (op : Op) (draw : Float32) (stat : String) (value : Int) (rate : Float32)
          (c : Client) (err : Option Error),
        op.call s1.client draw stat value rate = .done (c, err) → err = none) := by
  have hint : SenderIntact s :=
    run_preserves SenderIntact intact_step ls (newClient p) s
      (fun _ => ⟨rfl, rfl, rfl⟩) h
  obtain ⟨_, hbuf, _⟩ := hint hrun
  obtain ⟨s1, hs1, hr1, hh1, hb1, _, hn1, ho1⟩ := senderData_running s d rest w f hrun hbuf hq
  have hsend : send s.client d w f = .done (w.1, some e) := by
    unfold send
    rcases herr with hw | ⟨hw, hf⟩
    · simp [hbuf, hw]
    · simp [hbuf, hw, hf]
  have hout : s1.stdout = s.stdout ++ ["error:  " ++ e ++ "\n"] := by
    rw [ho1]
    rcases herr with hw | ⟨hw, hf⟩
    · simp [hw]
    · simp [hw, hf]
  refine ⟨hsend, s1, hs1, hr1, hh1, hb1, hout, ?_, ?_⟩
  · intro d2 rest2 w2 f2 hrest
    obtain ⟨s2, hs2, hr2, hh2, hb2, _⟩ :=
      senderData_running s1 d2 rest2 w2 f2 hr1 hn1 (by rw [hb1, hrest])
    exact ⟨s2, hs2, hr2, by rw [hh2, hh1]; simp, hb2⟩
  · intro op draw stat value rate c err
    exact call_error_nil op s1.client draw stat value rate c err

/-- Two lines queued and a refused write: the sender prints the error and keeps running with
the second line at the head of the queue. -/
theorem C10_send_error_not_fatal_witness :
    ∃ s1, step (.senderData (0, some "connection refused") none)
        { client :=
            { bufNil := false, connClosed := false, pfx := "app",
              data := { cap := 100, buf := ["app.a:1|c", "app.b:2|g"],
                        sent := ["app.a:1|c", "app.b:2|g"] },
              quitClosed := false },
          sender := .running, handed := [], stdout := [], closing := false } = .done s1 ∧
      s1.sender = .running ∧ s1.handed = [] ++ ["app.a:1|c"] ∧
      s1.client.data.buf = ["app.b:2|g"] ∧
      s1.stdout = [] ++ ["error:  " ++ "connection refused" ++ "\n"] :=
  have h := (C10_send_error_not_fatal "app"
    [.call .inc Float32.zero "a" 1 Float32.one, .call .guage Float32.zero "b" 2 Float32.one]
    { client :=
        { bufNil := false, connClosed := false, pfx := "app",
          data := { cap := 100, buf := ["app.a:1|c", "app.b:2|g"],
                    sent := ["app.a:1|c", "app.b:2|g"] },
          quitClosed := false },
      sender := .running, handed := [], stdout := [], closing := false }
    (by decide) "app.a:1|c" ["app.b:2|g"] (0, some "connection refused") none
    "connection refused" rfl rfl (Or.inl rfl)).2
  match h with
  | ⟨s1, h1, h2, h3, h4, h5, _⟩ => ⟨s1, h1, h2, h3, h4, h5⟩

end Statsd

